import Mathlib

/-!
Verification of the `Runner` component of `src/temporal/agent/runner.py`.

The embedding models:
* `Cap` — a callable capability (agent function); `id` identifies the
  function object, `markOk` records whether the external `activity.defn`
  marking succeeds on it (shape compatible with invocation).
* `Agent` — a named node with an ordered list of functions and sub-agents.
* `MarkState` — the set of capability ids already carrying the
  `__temporal_activity_definition` marking, threaded explicitly (in Python
  it is a mutation of the shared function object).
* `Runner` — the construction-time fields of the Python class, plus a
  `RunnerState` of the four mutable session fields.
* Session entry/exit and the query/update methods are modelled as explicit
  state transitions producing an effect trace; remote results come from an
  `Engine` oracle.
-/

/-- A callable capability (an agent function). `id` identifies the function
object; `markOk` is whether the external `activity.defn` marking succeeds
on it. -/
structure Cap where
  id : Nat
  markOk : Bool
deriving DecidableEq, Repr

/-- An agent: a name, an ordered list of functions, an ordered list of
sub-agents (`Agent` in `temporal/agent`, shape as used by the Runner). -/
inductive Agent where
  | mk (name : String) (functions : List Cap) (sub_agents : List Agent)

/-- The agent's name. -/
def Agent.name : Agent → String
  | .mk n _ _ => n

/-- The agent's own functions, in listed order. -/
def Agent.functions : Agent → List Cap
  | .mk _ f _ => f

/-- The agent's children, in listed order. -/
def Agent.sub_agents : Agent → List Agent
  | .mk _ _ s => s

/-- The set of capability ids already marked with
`__temporal_activity_definition`. -/
abbrev MarkState := List Nat

/-- External collaborator `activity.defn` (temporalio): marks a capability
as a durably-invocable activity; fails if the capability's shape is
incompatible with invocation (modelled by `markOk = false`). -/
def defn (fn : Cap) (s : MarkState) : Except String MarkState :=
  if fn.markOk then .ok (fn.id :: s) else .error "activity.defn failed"

/-- The per-agent loop body of `_functions_to_activities` (lines 85-88):
for each own function, mark it unless it already carries the marking, then
append it to the result list. An exception from `activity.defn`
propagates. -/
def mark_functions : List Cap → MarkState → Except String (List Cap × MarkState)
  | [], s => .ok ([], s)
  | fn :: rest, s =>
    match (if fn.id ∈ s then .ok s else defn fn s) with
    | .error e => .error e
    | .ok s1 =>
      match mark_functions rest s1 with
      | .error e => .error e
      | .ok (l, s2) => .ok (fn :: l, s2)

mutual
/-- Embedding of `Runner._functions_to_activities` (lines 81-93): own functions first,
then each child's flattened list, recursively, in listed order. -/
def functions_to_activities (a : Agent) (s : MarkState) :
    Except String (List Cap × MarkState) :=
  match a with
  | .mk _ fns subs =>
    match mark_functions fns s with
    | .error e => .error e
    | .ok (l1, s1) =>
      match functions_to_activities_list subs s1 with
      | .error e => .error e
      | .ok (l2, s2) => .ok (l1 ++ l2, s2)

/-- The `for sub_agent in agent.sub_agents: functions.extend(...)` loop of
`_functions_to_activities` (lines 90-91). -/
def functions_to_activities_list (as : List Agent) (s : MarkState) :
    Except String (List Cap × MarkState) :=
  match as with
  | [] => .ok ([], s)
  | a :: rest =>
    match functions_to_activities a s with
    | .error e => .error e
    | .ok (l1, s1) =>
      match functions_to_activities_list rest s1 with
      | .error e => .error e
      | .ok (l2, s2) => .ok (l1 ++ l2, s2)
end

mutual
/-- Spec-side definition: the pre-order depth-first sequence of
capabilities (own functions first, then each child's sequence in listed
order). -/
def preorder_functions (a : Agent) : List Cap :=
  match a with
  | .mk _ fns subs => fns ++ preorder_functions_list subs

/-- Pre-order sequence of a forest, in listed order. -/
def preorder_functions_list : List Agent → List Cap
  | [] => []
  | a :: rest => preorder_functions a ++ preorder_functions_list rest
end

/-- The Hierarchy Descriptor: a Python dict mapping an agent name to the
descriptor of that agent's children, kept as an insertion-ordered
association list. -/
inductive Hier where
  | mk (entries : List (String × Hier))

/-- The entries of a descriptor. -/
def Hier.entries : Hier → List (String × Hier)
  | .mk es => es

/-- Python dict assignment `d[k] = v`: updates the value in place if `k`
is already a key (keeping its position), otherwise appends the new pair. -/
def dictInsert (d : List (String × Hier)) (k : String) (v : Hier) :
    List (String × Hier) :=
  match d with
  | [] => [(k, v)]
  | (k', v') :: rest =>
    if k' = k then (k', v) :: rest else (k', v') :: dictInsert rest k v

mutual
/-- Embedding of `Runner._agent_hierarchy` (lines 77-79): the dict comprehension
`\x7b sub_agent.name: self._agent_hierarchy(sub_agent) for sub_agent in
agent.sub_agents \x7d`. -/
def agent_hierarchy (a : Agent) : Hier :=
  match a with
  | .mk _ _ subs => .mk (hier_fold subs [])

/-- The comprehension's left-to-right construction of the dict. -/
def hier_fold : List Agent → List (String × Hier) → List (String × Hier)
  | [], acc => acc
  | a :: rest, acc => hier_fold rest (dictInsert acc a.name (agent_hierarchy a))
end

/-- The four mutable session fields of the Python `Runner` object
(`self.client`, `self.worker`, `self.worker_task`, `self.workflow_id`).
Handles are opaque ids except the worker, whose construction arguments
matter to the spec. -/
structure WorkerSpec where
  task_queue : String
  workflows : List String
  activities : List Cap
  executor_capacity : Nat
deriving DecidableEq, Repr

/-- Input passed to the root workflow (`AgentWorkflowInput`). -/
structure AgentWorkflowInput where
  agent_name : String
  sub_agents : Hier
  is_root_agent : Bool

/-- One `client.start_workflow` call as issued by `__aenter__`. -/
structure StartWorkflowCall where
  input : AgentWorkflowInput
  id : String
  task_queue : String

/-- The mutable session state of a `Runner`. -/
structure RunnerState where
  client : Option Nat
  worker : Option WorkerSpec
  worker_task : Option Nat
  workflow_id : Option String
deriving DecidableEq

/-- The state right after `__init__` (lines 35-38): all four fields
`None`. -/
def RunnerState.initial : RunnerState :=
  { client := none, worker := none, worker_task := none, workflow_id := none }

/-- The `Runner` object: construction-time configuration plus the derived
`activities` and `agent_hierarchy` fields and the mutable session state. -/
structure Runner where
  app_name : String
  agent : Agent
  region : String
  temporal_address : String
  task_queue : String
  gcp_project : Option String
  activities : List Cap
  agent_hierarchy : Hier
  state : RunnerState

/-- Embedding of `Runner.__init__` (lines 20-41): stores the configuration, reads
`GCP_PROJECT_ID` from the environment, leaves the session fields `None`
and computes `activities` and `agent_hierarchy`; an exception from the
flattening-and-registration pass propagates out of the constructor. -/
def runner_init (app_name : String) (agent : Agent) (region : String)
    (temporal_address : String) (task_queue : String)
    (gcp_project : Option Nat → Option String) (s : MarkState) :
    Except String (Runner × MarkState) :=
  match functions_to_activities agent s with
  | .error e => .error e
  | .ok (acts, s') =>
    .ok ({ app_name := app_name, agent := agent, region := region,
           temporal_address := temporal_address, task_queue := task_queue,
           gcp_project := gcp_project none, activities := acts,
           agent_hierarchy := agent_hierarchy agent,
           state := RunnerState.initial }, s')

/-- Input to `Runner.prompt`: `Union[str, Dict[str, Any]]`. -/
inductive PromptInput where
  | text (s : String)
  | structured (fields : List (String × String))

/-- Oracle for the external Temporal service: the connection handle
`Client.connect` returns, the handle of the created background task, and
the remote results of query/update calls keyed by the stored workflow
identifier. -/
structure Engine where
  connect_handle : Nat
  task_handle : Nat
  query_result : Option String → Nat → List String
  update_result : Option String → PromptInput → String

/-- Embedding of `Runner._connect` (lines 95-97): sets `self.client`. -/
def Runner.connect (r : Runner) (eng : Engine) : Runner :=
  { r with state := { r.state with client := some eng.connect_handle } }

/-- Embedding of `Runner.thoughts` (lines 43-57): lazily connects when `self.client` is
`None`, then queries `get_model_content` on the handle for the stored
`workflow_id` with the given watermark. -/
def Runner.thoughts (r : Runner) (eng : Engine) (watermark : Nat) :
    Runner × List String :=
  let r1 := if r.state.client = none then r.connect eng else r
  (r1, eng.query_result r1.state.workflow_id watermark)

/-- Embedding of `Runner.prompt` (lines 59-74): lazily connects when `self.client` is
`None`, then executes the `prompt` update on the handle for the stored
`workflow_id`. -/
def Runner.prompt (r : Runner) (eng : Engine) (p : PromptInput) :
    Runner × String :=
  let r1 := if r.state.client = none then r.connect eng else r
  (r1, eng.update_result r1.state.workflow_id p)

/-- Externally visible actions of the session lifecycle. -/
inductive Effect where
  | connect (address : String)
  | vertexInit (project : Option String) (location : String)
  | startWorkerTask (w : WorkerSpec)
  | startWorkflow (c : StartWorkflowCall)
  | cancelWorkerTask (task : Nat)
  | terminateWorkflow (id : String)

/-- Embedding of `Runner.__aenter__` (lines 99-129): connect, init vertexai, build the
worker over `activities + [llm_manager.call_llm]`, start it as a
background task, generate the workflow id (`fresh_id`, the `uuid.uuid4()`
value) and start exactly one workflow with the agent's name, the stored
hierarchy and `is_root_agent=True`. -/
def Runner.aenter (r : Runner) (eng : Engine) (fresh_id : String)
    (call_llm : Cap) : Runner × List Effect :=
  let w : WorkerSpec :=
    { task_queue := r.task_queue, workflows := ["AgentWorkflow"],
      activities := r.activities ++ [call_llm], executor_capacity := 100 }
  let call : StartWorkflowCall :=
    { input := { agent_name := r.agent.name, sub_agents := r.agent_hierarchy,
                 is_root_agent := true },
      id := fresh_id, task_queue := r.task_queue }
  let st : RunnerState :=
    { client := some eng.connect_handle, worker := some w,
      worker_task := some eng.task_handle, workflow_id := some fresh_id }
  ({ r with state := st },
   [.connect r.temporal_address, .vertexInit r.gcp_project r.region,
    .startWorkerTask w, .startWorkflow call])

/-- What awaiting the cancelled worker task yields. -/
inductive TaskOutcome where
  | cancelled
  | completed
  | error (e : String)

/-- Result of `__aexit__`: the exception that escaped it (if any), the
runner afterwards, and the effect trace. -/
structure ExitResult where
  raised : Option String
  runner : Runner
  effects : List Effect

/-- Embedding of `Runner.__aexit__` (lines 131-145): if a worker task exists, cancel it
and await it, swallowing `asyncio.CancelledError`; any other exception
propagates immediately, skipping the cleanup lines. On the non-raising
paths, set `self.worker = None` and `self.client = None` (only those
two fields). -/
def Runner.aexit (r : Runner) (outcome : TaskOutcome) : ExitResult :=
  match r.state.worker_task with
  | none =>
    { raised := none,
      runner := { r with state := { r.state with worker := none, client := none } },
      effects := [] }
  | some t =>
    match outcome with
    | .error e => { raised := some e, runner := r, effects := [.cancelWorkerTask t] }
    | _ =>
      { raised := none,
        runner := { r with state := { r.state with worker := none, client := none } },
        effects := [.cancelWorkerTask t] }

/-- The workflow-start calls appearing in an effect trace. -/
def start_calls (effs : List Effect) : List StartWorkflowCall :=
  effs.filterMap fun e =>
    match e with
    | .startWorkflow c => some c
    | _ => none

/-- Effect of one action on the execution engine's registry of running
workflow instances. -/
def apply_effect (reg : List String) : Effect → List String
  | .startWorkflow c => reg ++ [c.id]
  | .terminateWorkflow i => reg.erase i
  | _ => reg

/-- Effect of a trace on the registry. -/
def apply_effects (reg : List String) (effs : List Effect) : List String :=
  effs.foldl apply_effect reg

/-- One pass of the per-agent marking loop: the returned list is exactly
the input function list, the mark state only grows, and every processed
capability is marked afterwards. -/
theorem mark_functions_ok (fns : List Cap) :
    ∀ s l s', mark_functions fns s = .ok (l, s') →
      l = fns ∧ (∀ x ∈ s, x ∈ s') ∧ (∀ c ∈ fns, c.id ∈ s') := by
  induction fns with
  | nil =>
    intro s l s' h
    simp [mark_functions] at h
    obtain ⟨h1, h2⟩ := h
    subst h1; subst h2
    simp
  | cons fn rest ih =>
    intro s l s' h
    simp only [mark_functions] at h
    split at h
    · exact absurd h (by simp)
    · rename_i s1 hstep
      split at h
      · exact absurd h (by simp)
      · rename_i l2 s2 hrec
        obtain ⟨he, hmono, hmem⟩ := ih s1 l2 s2 hrec
        cases h
        have hs1 : (∀ x ∈ s, x ∈ s1) ∧ fn.id ∈ s1 := by
          by_cases hc : fn.id ∈ s
          · simp only [if_pos hc] at hstep
            cases hstep
            exact ⟨fun x hx => hx, hc⟩
          · simp only [if_neg hc] at hstep
            cases hmk : fn.markOk with
            | false => simp [defn, hmk] at hstep
            | true =>
              simp [defn, hmk] at hstep
              subst hstep
              exact ⟨fun x hx => List.mem_cons_of_mem _ hx, List.mem_cons_self _ _⟩
        refine ⟨by simp [he], fun x hx => hmono x (hs1.1 x hx), ?_⟩
        intro c hc
        rcases List.mem_cons.mp hc with h1 | h2
        · subst h1; exact hmono _ hs1.2
        · exact hmem c h2

/-- On a function list whose capabilities are all already marked, the
marking loop succeeds, skips every `activity.defn` call and leaves the
mark state untouched. -/
theorem mark_functions_marked (fns : List Cap) :
    ∀ s, (∀ c ∈ fns, c.id ∈ s) → mark_functions fns s = .ok (fns, s) := by
  induction fns with
  | nil => intro s _; simp [mark_functions]
  | cons fn rest ih =>
    intro s h
    have hfn : fn.id ∈ s := h fn (List.mem_cons_self _ _)
    have hrest : ∀ c ∈ rest, c.id ∈ s := fun c hc => h c (List.mem_cons_of_mem _ hc)
    simp [mark_functions, if_pos hfn, ih s hrest]

mutual
/-- A successful flattening pass returns the pre-order sequence, only grows
the mark state and leaves every traversed capability marked. -/
theorem fta_ok : ∀ (a : Agent) (s : MarkState) (l : List Cap) (s' : MarkState),
    functions_to_activities a s = .ok (l, s') →
      l = preorder_functions a ∧ (∀ x ∈ s, x ∈ s') ∧
        (∀ c ∈ preorder_functions a, c.id ∈ s')
  | .mk n fns subs, s, l, s', h => by
    simp only [functions_to_activities] at h
    split at h
    · exact absurd h (by simp)
    · rename_i l1 s1 hmf
      split at h
      · exact absurd h (by simp)
      · rename_i l2 s2 hsub
        obtain ⟨he1, hmono1, hmem1⟩ := mark_functions_ok fns s l1 s1 hmf
        obtain ⟨he2, hmono2, hmem2⟩ := fta_list_ok subs s1 l2 s2 hsub
        cases h
        subst he1; subst he2
        refine ⟨by simp [preorder_functions], fun x hx => hmono2 x (hmono1 x hx), ?_⟩
        intro c hc
        simp only [preorder_functions] at hc
        rcases List.mem_append.mp hc with h1 | h2
        · exact hmono2 _ (hmem1 c h1)
        · exact hmem2 c h2

/-- Forest version of `fta_ok`. -/
theorem fta_list_ok : ∀ (as : List Agent) (s : MarkState) (l : List Cap) (s' : MarkState),
    functions_to_activities_list as s = .ok (l, s') →
      l = preorder_functions_list as ∧ (∀ x ∈ s, x ∈ s') ∧
        (∀ c ∈ preorder_functions_list as, c.id ∈ s')
  | [], s, l, s', h => by
    simp [functions_to_activities_list] at h
    obtain ⟨h1, h2⟩ := h
    subst h1; subst h2
    simp [preorder_functions_list]
  | a :: rest, s, l, s', h => by
    simp only [functions_to_activities_list] at h
    split at h
    · exact absurd h (by simp)
    · rename_i l1 s1 h1
      split at h
      · exact absurd h (by simp)
      · rename_i l2 s2 h2
        obtain ⟨he1, hmono1, hmem1⟩ := fta_ok a s l1 s1 h1
        obtain ⟨he2, hmono2, hmem2⟩ := fta_list_ok rest s1 l2 s2 h2
        cases h
        subst he1; subst he2
        refine ⟨by simp [preorder_functions_list], fun x hx => hmono2 x (hmono1 x hx), ?_⟩
        intro c hc
        simp only [preorder_functions_list] at hc
        rcases List.mem_append.mp hc with hm1 | hm2
        · exact hmono2 _ (hmem1 c hm1)
        · exact hmem2 c hm2
end

mutual
/-- On a tree whose capabilities are all already marked, the flattening
pass succeeds with the pre-order sequence and an unchanged mark state. -/
theorem fta_marked : ∀ (a : Agent) (s : MarkState),
    (∀ c ∈ preorder_functions a, c.id ∈ s) →
      functions_to_activities a s = .ok (preorder_functions a, s)
  | .mk n fns subs, s, h => by
    have hf : ∀ c ∈ fns, c.id ∈ s := fun c hc => h c (by simp [preorder_functions, hc])
    have hs : ∀ c ∈ preorder_functions_list subs, c.id ∈ s :=
      fun c hc => h c (by simp [preorder_functions, hc])
    simp [functions_to_activities, mark_functions_marked fns s hf,
      fta_list_marked subs s hs, preorder_functions]

/-- Forest version of `fta_marked`. -/
theorem fta_list_marked : ∀ (as : List Agent) (s : MarkState),
    (∀ c ∈ preorder_functions_list as, c.id ∈ s) →
      functions_to_activities_list as s = .ok (preorder_functions_list as, s)
  | [], s, h => by simp [functions_to_activities_list, preorder_functions_list]
  | a :: rest, s, h => by
    have h1 : ∀ c ∈ preorder_functions a, c.id ∈ s :=
      fun c hc => h c (by simp [preorder_functions_list, hc])
    have h2 : ∀ c ∈ preorder_functions_list rest, c.id ∈ s :=
      fun c hc => h c (by simp [preorder_functions_list, hc])
    simp [functions_to_activities_list, fta_marked a s h1,
      fta_list_marked rest s h2, preorder_functions_list]
end

/-- Inserting a key that is not yet present appends the pair at the end. -/
theorem dictInsert_append (d : List (String × Hier)) (k : String) (v : Hier)
    (h : k ∉ d.map Prod.fst) : dictInsert d k v = d ++ [(k, v)] := by
  induction d with
  | nil => rfl
  | cons p rest ih =>
    obtain ⟨k', v'⟩ := p
    simp only [List.map_cons, List.mem_cons] at h
    push_neg at h
    have hne : ¬ k' = k := fun hh => h.1 hh.symm
    simp only [dictInsert, if_neg hne]
    simp [ih h.2]

/-- With pairwise distinct sibling names (and none colliding with the
accumulator), the comprehension appends one entry per child in listed
order. -/
theorem hier_fold_map (subs : List Agent) :
    ∀ acc, (subs.map Agent.name).Nodup →
      (∀ a ∈ subs, a.name ∉ acc.map Prod.fst) →
      hier_fold subs acc = acc ++ subs.map (fun c => (c.name, agent_hierarchy c)) := by
  induction subs with
  | nil => intro acc _ _; simp [hier_fold]
  | cons a rest ih =>
    intro acc hnd hdisj
    simp only [List.map_cons, List.nodup_cons] at hnd
    have hnotin : a.name ∉ acc.map Prod.fst := hdisj a (List.mem_cons_self _ _)
    have hdisj' : ∀ b ∈ rest,
        b.name ∉ (acc ++ [(a.name, agent_hierarchy a)]).map Prod.fst := by
      intro b hb
      simp only [List.map_append, List.mem_append, List.map_cons, List.map_nil,
        List.mem_singleton]
      push_neg
      refine ⟨hdisj b (List.mem_cons_of_mem _ hb), ?_⟩
      intro hbe
      exact hnd.1 (hbe ▸ List.mem_map_of_mem Agent.name hb)
    simp only [hier_fold]
    rw [dictInsert_append acc a.name _ hnotin, ih _ hnd.2 hdisj']
    simp

/-- C1: for every agent tree, a Flattened Activity Set produced at Runner
construction is exactly the pre-order depth-first sequence of
capabilities — the root's own functions first in listed order, then each
child's flattened sequence recursively — with no capability skipped and
duplicates preserved positionally; being a function of the tree, the
result is deterministic given the same tree. -/
theorem functions_to_activities_preorder (a : Agent) (s : MarkState)
    (l : List Cap) (s' : MarkState)
    (h : functions_to_activities a s = .ok (l, s')) :
    l = preorder_functions a :=
  (fta_ok a s l s' h).1

/-- Witness for C1: a root with one function and two children, one
function each, flattens to the three capabilities in pre-order. -/
theorem functions_to_activities_preorder_witness :
    functions_to_activities
        (.mk "root" [⟨0, true⟩] [.mk "a" [⟨1, true⟩] [], .mk "b" [⟨2, true⟩] []]) []
      = .ok ([⟨0, true⟩, ⟨1, true⟩, ⟨2, true⟩], [2, 1, 0]) ∧
    [Cap.mk 0 true, Cap.mk 1 true, Cap.mk 2 true] =
      preorder_functions
        (.mk "root" [⟨0, true⟩] [.mk "a" [⟨1, true⟩] [], .mk "b" [⟨2, true⟩] []]) :=
  ⟨rfl, functions_to_activities_preorder _ [] _ [2, 1, 0] rfl⟩

/-- C2: registration is idempotent — a second flattening-and-registration
pass over the same tree, starting from the mark state the first pass
produced, skips every re-marking, raises no error, returns the same
capability list and leaves the mark state (the capabilities' markings)
unchanged. -/
theorem functions_to_activities_idempotent (a : Agent) (s : MarkState)
    (l : List Cap) (s' : MarkState)
    (h : functions_to_activities a s = .ok (l, s')) :
    functions_to_activities a s' = .ok (l, s') := by
  obtain ⟨he, _, hmem⟩ := fta_ok a s l s' h
  subst he
  exact fta_marked a s' hmem

/-- Witness for C2: a capability object shared by parent and child is
marked once; the second pass over the same tree is a no-op. -/
theorem functions_to_activities_idempotent_witness :
    functions_to_activities (.mk "r" [⟨5, true⟩] [.mk "c" [⟨5, true⟩] []]) []
      = .ok ([⟨5, true⟩, ⟨5, true⟩], [5]) ∧
    functions_to_activities (.mk "r" [⟨5, true⟩] [.mk "c" [⟨5, true⟩] []]) [5]
      = .ok ([⟨5, true⟩, ⟨5, true⟩], [5]) :=
  ⟨rfl, functions_to_activities_idempotent _ [] _ [5] rfl⟩

/-- C6 (amended): the Hierarchy Descriptor of a node maps each child's
name to that child's recursive descriptor — in listed order, one entry per
child — provided the sibling names are pairwise distinct (a later sibling
with a duplicate name overwrites the earlier entry, see the
counterexample); a leaf agent yields the empty mapping as the instance
with no children. -/
theorem agent_hierarchy_children_map (n : String) (fns : List Cap)
    (subs : List Agent) (h : (subs.map Agent.name).Nodup) :
    agent_hierarchy (.mk n fns subs) =
      .mk (subs.map fun c => (c.name, agent_hierarchy c)) := by
  simp only [agent_hierarchy]
  rw [hier_fold_map subs [] h (by simp)]
  simp

/-- Witness for C6: a root with two childless children named "a" and "b"
yields exactly two top-level entries, each an empty descriptor. -/
theorem agent_hierarchy_children_map_witness :
    (([Agent.mk "a" [] [], Agent.mk "b" [] []].map Agent.name).Nodup) ∧
    agent_hierarchy (.mk "root" [] [.mk "a" [] [], .mk "b" [] []]) =
      .mk [("a", Hier.mk []), ("b", Hier.mk [])] := by
  refine ⟨by simp [Agent.name], ?_⟩
  have h := agent_hierarchy_children_map "root" []
    [.mk "a" [] [], .mk "b" [] []] (by simp [Agent.name])
  simpa [Agent.name] using h

/-- Counterexample for C6: with two childless children both named "a",
the descriptor has a single top-level key, not two — the dict
comprehension silently collapses duplicate sibling names. -/
theorem agent_hierarchy_duplicate_names_collapse :
    (agent_hierarchy (.mk "root" [] [.mk "a" [] [], .mk "a" [] []])).entries
      = [("a", Hier.mk [])] ∧
    (agent_hierarchy (.mk "root" [] [.mk "a" [] [], .mk "a" [] []])).entries.length
      ≠ 2 :=
  ⟨rfl, by decide⟩

/-- C7: a capability-marking failure during registration is fatal and
surfaces during Runner construction — the flattening-and-registration
pass runs inside `__init__`, so its error is the constructor's error and
no `Runner` value (hence no session) ever exists. -/
theorem runner_init_marking_failure_fatal (app reg addr q : String)
    (agent : Agent) (proj : Option Nat → Option String) (s : MarkState)
    (e : String) (h : functions_to_activities agent s = .error e) :
    runner_init app agent reg addr q proj s = .error e := by
  simp [runner_init, h]

/-- Witness for C7: an unmarkable capability in the root's function list
aborts construction with the marking error. -/
theorem runner_init_marking_failure_fatal_witness :
    functions_to_activities (.mk "r" [⟨0, false⟩] []) []
      = .error "activity.defn failed" ∧
    runner_init "app" (.mk "r" [⟨0, false⟩] []) "us" "addr" "q" (fun _ => none) []
      = .error "activity.defn failed" :=
  ⟨rfl, runner_init_marking_failure_fatal "app" "us" "addr" "q" _ _ [] _ rfl⟩

/-- A runner in mid-session state: all four session fields set, as after a
successful `__aenter__`. -/
def session_runner : Runner :=
  { app_name := "app", agent := .mk "root" [] [], region := "us-central1",
    temporal_address := "localhost:7233", task_queue := "agent-task-queue",
    gcp_project := none, activities := [], agent_hierarchy := .mk [],
    state := { client := some 1,
               worker := some { task_queue := "agent-task-queue",
                                workflows := ["AgentWorkflow"],
                                activities := [], executor_capacity := 100 },
               worker_task := some 7, workflow_id := some "wf-7" } }

/-- A freshly constructed runner over a childless one-function agent, as
`runner_init` returns it. -/
def built_runner : Runner :=
  { app_name := "app", agent := .mk "root" [⟨3, true⟩] [], region := "us",
    temporal_address := "addr", task_queue := "q", gcp_project := none,
    activities := [⟨3, true⟩], agent_hierarchy := .mk [],
    state := RunnerState.initial }

/-- A sample oracle for the external Temporal service. -/
def sample_engine : Engine :=
  { connect_handle := 11, task_handle := 12,
    query_result := fun _ w => if w = 0 then ["t0", "t1"] else ["t1"],
    update_result := fun _ _ => "done" }

/-- C3 (amended): when session exit completes without the worker task
raising a non-cancellation exception, the worker handle and the connection
handle are cleared, but the background task handle and the root workflow
identifier are not cleared — `__aexit__` sets only `self.worker` and
`self.client` to `None`. -/
theorem aexit_clears_worker_and_client (r : Runner) (outcome : TaskOutcome)
    (h : (r.aexit outcome).raised = none) :
    (r.aexit outcome).runner.state.worker = none ∧
    (r.aexit outcome).runner.state.client = none ∧
    (r.aexit outcome).runner.state.worker_task = r.state.worker_task ∧
    (r.aexit outcome).runner.state.workflow_id = r.state.workflow_id := by
  cases htask : r.state.worker_task with
  | none => simp [Runner.aexit, htask]
  | some t =>
    cases outcome with
    | error e => simp [Runner.aexit, htask] at h
    | cancelled => simp [Runner.aexit, htask]
    | completed => simp [Runner.aexit, htask]

/-- Witness for C3 (amended): clean exit from a full session state clears
worker and client and retains the task handle and workflow id. -/
theorem aexit_clears_worker_and_client_witness :
    (session_runner.aexit .cancelled).raised = none ∧
    ((session_runner.aexit .cancelled).runner.state.worker = none ∧
     (session_runner.aexit .cancelled).runner.state.client = none ∧
     (session_runner.aexit .cancelled).runner.state.worker_task =
       session_runner.state.worker_task ∧
     (session_runner.aexit .cancelled).runner.state.workflow_id =
       session_runner.state.workflow_id) :=
  ⟨rfl, aexit_clears_worker_and_client session_runner .cancelled rfl⟩

/-- Counterexample for C3: after a clean session exit from a full session
state, the background task handle and the root workflow identifier are
still present — the Session State is not fully cleared. -/
theorem aexit_not_fully_cleared :
    (session_runner.aexit .cancelled).raised = none ∧
    (session_runner.aexit .cancelled).runner.state.worker_task = some 7 ∧
    (session_runner.aexit .cancelled).runner.state.workflow_id = some "wf-7" :=
  ⟨rfl, rfl, rfl⟩

/-- C4 (amended): during session exit with a live worker task, a
`CancelledError` from the awaited task is treated as clean shutdown — it
is swallowed and the clearing of worker and client still happens; any
other exception from the task propagates out of `__aexit__` unlogged,
and the clearing of state does not happen. -/
theorem aexit_cancel_swallowed_error_propagates (r : Runner) (t : Nat)
    (h : r.state.worker_task = some t) :
    ((r.aexit .cancelled).raised = none ∧
     (r.aexit .cancelled).runner.state.worker = none ∧
     (r.aexit .cancelled).runner.state.client = none) ∧
    (∀ e, (r.aexit (.error e)).raised = some e ∧
          (r.aexit (.error e)).runner = r) := by
  simp [Runner.aexit, h]

/-- Witness for C4 (amended): on the sample mid-session runner,
cancellation is swallowed and cleanup runs, while a distinct exception
escapes with the state intact. -/
theorem aexit_cancel_swallowed_error_propagates_witness :
    session_runner.state.worker_task = some 7 ∧
    (((session_runner.aexit .cancelled).raised = none ∧
      (session_runner.aexit .cancelled).runner.state.worker = none ∧
      (session_runner.aexit .cancelled).runner.state.client = none) ∧
     (∀ e, (session_runner.aexit (.error e)).raised = some e ∧
           (session_runner.aexit (.error e)).runner = session_runner)) :=
  ⟨rfl, aexit_cancel_swallowed_error_propagates session_runner 7 rfl⟩

/-- Counterexample for C4: a non-cancellation exception from the awaited
worker task is re-raised out of `__aexit__` (not merely logged), and
teardown does not complete — the connection and worker handles survive. -/
theorem aexit_error_not_swallowed :
    (session_runner.aexit (.error "boom")).raised = some "boom" ∧
    (session_runner.aexit (.error "boom")).runner.state.client = some 1 ∧
    (session_runner.aexit (.error "boom")).runner.state.worker ≠ none :=
  ⟨rfl, rfl, by simp [session_runner, Runner.aexit]⟩

/-- C5: entering a session on a constructed Runner stores the freshly
generated identifier as the root workflow identifier and issues exactly
one workflow start, keyed by that identifier on the configured task
queue, whose input carries the root agent's name, the Hierarchy
Descriptor and `is_root_agent = true`; the worker started in the same
step is bound to the Flattened Activity Set plus exactly one additional
model-invocation capability. -/
theorem aenter_starts_one_workflow (app reg addr q : String) (agent : Agent)
    (proj : Option Nat → Option String) (s s' : MarkState) (r : Runner)
    (eng : Engine) (fresh_id : String) (call_llm : Cap)
    (h : runner_init app agent reg addr q proj s = .ok (r, s')) :
    (r.aenter eng fresh_id call_llm).1.state.workflow_id = some fresh_id ∧
    start_calls (r.aenter eng fresh_id call_llm).2 =
      [{ input := { agent_name := agent.name,
                    sub_agents := agent_hierarchy agent,
                    is_root_agent := true },
         id := fresh_id, task_queue := q }] ∧
    (r.aenter eng fresh_id call_llm).1.state.worker =
      some { task_queue := q, workflows := ["AgentWorkflow"],
             activities := r.activities ++ [call_llm],
             executor_capacity := 100 } := by
  simp only [runner_init] at h
  split at h
  · exact absurd h (by simp)
  · rename_i acts s2 hacts
    cases h
    simp [Runner.aenter, start_calls]

/-- Witness for C5: session entry on a concrete constructed runner issues
one start call with the expected id, queue and input, and binds the
flattened set plus the one model capability. -/
theorem aenter_starts_one_workflow_witness :
    runner_init "app" (.mk "root" [⟨3, true⟩] []) "us" "addr" "q"
        (fun _ => none) [] = .ok (built_runner, [3]) ∧
    ((built_runner.aenter sample_engine "wf-1" ⟨9, true⟩).1.state.workflow_id
        = some "wf-1" ∧
     start_calls (built_runner.aenter sample_engine "wf-1" ⟨9, true⟩).2 =
       [{ input := { agent_name := (Agent.mk "root" [⟨3, true⟩] []).name,
                     sub_agents := agent_hierarchy (.mk "root" [⟨3, true⟩] []),
                     is_root_agent := true },
          id := "wf-1", task_queue := "q" }] ∧
     (built_runner.aenter sample_engine "wf-1" ⟨9, true⟩).1.state.worker =
       some { task_queue := "q", workflows := ["AgentWorkflow"],
              activities := built_runner.activities ++ [⟨9, true⟩],
              executor_capacity := 100 }) :=
  ⟨rfl, aenter_starts_one_workflow "app" "us" "addr" "q" _ (fun _ => none)
    [] [3] built_runner sample_engine "wf-1" ⟨9, true⟩ rfl⟩

/-- C8: calling `prompt` or `thoughts` with no active connection lazily
connects first and still returns the remote result of the update
(respectively the queried record sequence) for the stored workflow
identifier. -/
theorem prompt_thoughts_lazy_connect (r : Runner) (eng : Engine)
    (p : PromptInput) (w : Nat) (h : r.state.client = none) :
    ((r.prompt eng p).1.state.client = some eng.connect_handle ∧
     (r.prompt eng p).2 = eng.update_result r.state.workflow_id p) ∧
    ((r.thoughts eng w).1.state.client = some eng.connect_handle ∧
     (r.thoughts eng w).2 = eng.query_result r.state.workflow_id w) := by
  simp [Runner.prompt, Runner.thoughts, Runner.connect, h]

/-- Witness for C8: calling `prompt`/`thoughts` on a freshly constructed
runner (no session entered) connects and returns the oracle results for
the stored (absent) workflow identifier. -/
theorem prompt_thoughts_lazy_connect_witness :
    built_runner.state.client = none ∧
    (((built_runner.prompt sample_engine (.text "hi")).1.state.client
        = some sample_engine.connect_handle ∧
      (built_runner.prompt sample_engine (.text "hi")).2
        = sample_engine.update_result built_runner.state.workflow_id (.text "hi")) ∧
     ((built_runner.thoughts sample_engine 0).1.state.client
        = some sample_engine.connect_handle ∧
      (built_runner.thoughts sample_engine 0).2
        = sample_engine.query_result built_runner.state.workflow_id 0)) :=
  ⟨rfl, prompt_thoughts_lazy_connect built_runner sample_engine (.text "hi") 0 rfl⟩

/-- C9: session exit on a Runner that was constructed but never entered a
session is a no-op that never raises — no cancellation is issued, nothing
is awaited, the state stays all-absent and no exception escapes,
whatever the (never-consulted) task outcome would be. -/
theorem aexit_without_entry_noop (app reg addr q : String) (agent : Agent)
    (proj : Option Nat → Option String) (s s' : MarkState) (r : Runner)
    (outcome : TaskOutcome)
    (h : runner_init app agent reg addr q proj s = .ok (r, s')) :
    (r.aexit outcome).raised = none ∧
    (r.aexit outcome).runner.state = RunnerState.initial ∧
    (r.aexit outcome).effects = [] := by
  simp only [runner_init] at h
  split at h
  · exact absurd h (by simp)
  · rename_i acts s2 hacts
    cases h
    simp [Runner.aexit, RunnerState.initial]

/-- Witness for C9: exiting the concrete never-entered runner raises
nothing, leaves the initial state and issues no effect. -/
theorem aexit_without_entry_noop_witness :
    runner_init "app" (.mk "root" [⟨3, true⟩] []) "us" "addr" "q"
        (fun _ => none) [] = .ok (built_runner, [3]) ∧
    ((built_runner.aexit .completed).raised = none ∧
     (built_runner.aexit .completed).runner.state = RunnerState.initial ∧
     (built_runner.aexit .completed).effects = []) :=
  ⟨rfl, aexit_without_entry_noop "app" "us" "addr" "q" (.mk "root" [⟨3, true⟩] [])
    (fun _ => none) [] [3] built_runner .completed rfl⟩

/-- C10: session exit never touches the started root workflow instance —
its effect trace is at most the single cancellation of the background
worker task, it contains no workflow start and no workflow termination,
and the execution engine's registry of running workflow instances is
unchanged by it. -/
theorem aexit_never_touches_workflow (r : Runner) (outcome : TaskOutcome)
    (reg : List String) :
    ((r.aexit outcome).effects = [] ∨
      ∃ t, (r.aexit outcome).effects = [Effect.cancelWorkerTask t]) ∧
    start_calls (r.aexit outcome).effects = [] ∧
    apply_effects reg (r.aexit outcome).effects = reg := by
  cases htask : r.state.worker_task with
  | none => simp [Runner.aexit, htask, start_calls, apply_effects]
  | some t =>
    cases outcome with
    | error e =>
      simp [Runner.aexit, htask, start_calls, apply_effects, apply_effect]
    | cancelled =>
      simp [Runner.aexit, htask, start_calls, apply_effects, apply_effect]
    | completed =>
      simp [Runner.aexit, htask, start_calls, apply_effects, apply_effect]
